import Mathlib

/-!
# Verification of the trackd progress/streak calculation engine

This development embeds the pure calculation core of the trackd client:
daily bucketing of dated entries, the goal-met predicate, calendar month
aggregation, consecutive and cumulative streak counting, and the
stone/pounds/kilograms unit conversions.

Dates are modelled as integers (one unit = one local calendar day) for the
streak walks, matching the source's day-by-day `setDate` stepping; calendar
keys for the month view are `(year, month, day)` triples, matching the
source's `YYYY-MM-DD` string keys. Entry values are rationals.
-/

namespace Trackd

/-- One logged measurement: a local calendar date (as an absolute day
number) and a numeric value (grams of protein or a calorie count). -/
structure DatedEntry where
  date : Int
  value : Rat
deriving DecidableEq

/-- JS-object style accumulation `totals[key] = (totals[key] || 0) + v`:
if the key is present, add to its value in place, otherwise append it. -/
def addEntry {κ : Type} [DecidableEq κ] : List (κ × Rat) → κ → Rat → List (κ × Rat)
  | [], k, v => [(k, v)]
  | (k0, w) :: t, k, v =>
      if k0 = k then (k0, w + v) :: t else (k0, w) :: addEntry t k v

/-- Lookup with zero default, the source's `totals[dateKey] || 0`. -/
def dayTotal {κ : Type} [DecidableEq κ] : List (κ × Rat) → κ → Rat
  | [], _ => 0
  | (k0, w) :: t, k => if k0 = k then w else dayTotal t k

/-- Sum of all bucketed values in a totals map. -/
def sumValues {κ : Type} (m : List (κ × Rat)) : Rat :=
  (m.map Prod.snd).sum

/-- `dailyTotalsByDate`: bucket entries into per-day totals by folding the
accumulation step over the entry list (source: `forEach` building a
`{ [dateKey: string]: number }` record). -/
def dailyTotalsByDate (entries : List DatedEntry) : List (Int × Rat) :=
  entries.foldl (fun acc e => addEntry acc e.date e.value) []

/-- The goal-met comparison used throughout the source: `total >= goal`. -/
def metGoal (total goal : Rat) : Bool :=
  decide (goal ≤ total)

/-- The consecutive-mode backward walk of `calculateRewardProgress` /
`getRewardProgress`: at offset `i` the candidate day is `anchor - i`; a
candidate before `startDate` stops the walk, a met day increments and
continues, a missed day stops unless `i = 0`.  `fuel` is the number of
loop iterations left (the source runs `i = 0..365`). -/
def streakGo (totals : List (Int × Rat)) (goal : Rat) (startDate anchor : Int) :
    Nat → Nat → Nat → Nat
  | 0, _, acc => acc
  | fuel + 1, i, acc =>
      if anchor - (i : Int) < startDate then acc
      else if metGoal (dayTotal totals (anchor - (i : Int))) goal then
        streakGo totals goal startDate anchor fuel (i + 1) (acc + 1)
      else if 0 < i then acc
      else streakGo totals goal startDate anchor fuel (i + 1) acc

/-- `consecutiveStreak(map, goal, startDate, anchorDate)`: the source loop
`for (i = 0; i <= 365; i++)`, i.e. 366 iterations starting at offset 0. -/
def consecutiveStreak (totals : List (Int × Rat)) (goal : Rat)
    (startDate anchor : Int) : Nat :=
  streakGo totals goal startDate anchor 366 0 0

/-- Length of the run of consecutive offsets `j, j+1, ...` (at most `fuel`
of them) at which the candidate day `anchor - j` is on or after `startDate`
and meets the goal.  Reference description of the tail of the walk. -/
def countMetRun (totals : List (Int × Rat)) (goal : Rat) (startDate anchor : Int) :
    Nat → Nat → Nat
  | 0, _ => 0
  | fuel + 1, j =>
      if startDate ≤ anchor - (j : Int) ∧
          metGoal (dayTotal totals (anchor - (j : Int))) goal then
        countMetRun totals goal startDate anchor fuel (j + 1) + 1
      else 0

/-- The inner backward loop of the home screen's `proteinStreak`
(`for (i = 1; i <= 365; i++)`): increment while the day is met, stop at
the first miss.  No start-date cutoff exists in this implementation. -/
def backGo (totals : List (Int × Rat)) (goal : Rat) (today : Int) :
    Nat → Nat → Nat → Nat
  | 0, _, acc => acc
  | fuel + 1, i, acc =>
      if metGoal (dayTotal totals (today - (i : Int))) goal then
        backGo totals goal today fuel (i + 1) (acc + 1)
      else acc

/-- The home screen's `proteinStreak`: 0 for an empty intake list,
otherwise today's lenient check followed by the backward walk from
yesterday over at most 365 offsets. -/
def proteinStreak (entries : List DatedEntry) (goal : Rat) (today : Int) : Nat :=
  if entries.isEmpty then 0
  else
    backGo (dailyTotalsByDate entries) goal today 365 1
      (if metGoal (dayTotal (dailyTotalsByDate entries) today) goal then 1 else 0)

/-- The cumulative-mode forward loop body: count met days over `n`
consecutive days starting at `d`. -/
def cumGo (totals : List (Int × Rat)) (goal : Rat) : Nat → Int → Nat
  | 0, _ => 0
  | n + 1, d =>
      (if metGoal (dayTotal totals d) goal then 1 else 0) + cumGo totals goal n (d + 1)

/-- `cumulativeCount(map, goal, startDate, endDate)`: the source's
`while (d <= today)` loop stepping one day forward from `startDate`,
which executes `max 0 (endDate - startDate + 1)` iterations. -/
def cumulativeCount (totals : List (Int × Rat)) (goal : Rat)
    (startDate endDate : Int) : Nat :=
  cumGo totals goal (endDate + 1 - startDate).toNat startDate

/-- A calendar-dated measurement for the month view: year/month/day
components (month 1-based, as in the `YYYY-MM-DD` key) and a value. -/
structure CalEntry where
  year : Int
  month : Int
  day : Int
  value : Rat
deriving DecidableEq

/-- Bucket calendar entries by their `(year, month, day)` key. -/
def calTotalsByDate (entries : List CalEntry) : List ((Int × Int × Int) × Rat) :=
  entries.foldl (fun acc e => addEntry acc (e.year, e.month, e.day) e.value) []

/-- Bucketed total for one calendar day. -/
def calDayTotal (totals : List ((Int × Int × Int) × Rat)) (y m d : Int) : Rat :=
  dayTotal totals (y, m, d)

/-- Gregorian leap-year rule, as implemented by the JS `Date` calendar. -/
def isLeapYear (y : Int) : Bool :=
  (y % 4 = 0 && !(y % 100 = 0)) || y % 400 = 0

/-- Number of days in a (1-based) month, the source's
`new Date(year, month + 1, 0).getDate()`. -/
def daysInMonth (y m : Int) : Nat :=
  if m = 2 then (if isLeapYear y then 29 else 28)
  else if m = 4 ∨ m = 6 ∨ m = 9 ∨ m = 11 then 30
  else 31

/-- `dayMetGoal(day)` of the calendar view: the day's bucketed total
(zero when absent) compared non-strictly against the goal. -/
def dayMetGoal (totals : List ((Int × Int × Int) × Rat)) (y m d : Int)
    (goal : Rat) : Bool :=
  metGoal (calDayTotal totals y m d) goal

/-- `daysMetGoalThisMonth`: count the days `1 .. daysInMonth` of the given
month whose bucketed total meets the goal. -/
def monthMetCount (totals : List ((Int × Int × Int) × Rat)) (y m : Int)
    (goal : Rat) : Nat :=
  (List.range (daysInMonth y m)).countP
    (fun (k : Nat) => dayMetGoal totals y m ((k : Int) + 1) goal)

/-- `toTotalLbs(st, lbs)`: `(st || 0) * 14 + (lbs || 0)`. -/
def toTotalLbs (st lbs : Option Rat) : Rat :=
  st.getD 0 * 14 + lbs.getD 0

/-- The stone/pounds split of `getEffectiveWeight`:
`{ st: Math.floor(totalLbs / 14), lbs: totalLbs % 14 }` (JS `%` on a
non-negative operand is the floor remainder). -/
def toStoneDisplayPounds (totalLbs : Rat) : Int × Rat :=
  (⌊totalLbs / 14⌋, totalLbs - 14 * (⌊totalLbs / 14⌋ : Int))

/-- The kilograms value computed by `formatWeight` in metric mode, before
display formatting: `(st * 6.35029) + (lbs * 0.453592)` with null
components read as 0. -/
def totalKg (st lbs : Option Rat) : Rat :=
  st.getD 0 * (635029 / 100000) + lbs.getD 0 * (453592 / 1000000)

/-- Modelled from the spec (§4.7, for comparison with `totalKg`): the
composed conversion `poundsToKilograms(toTotalPounds(st, lbs))`
`= (st*14 + lbs) * 0.453592`. -/
def specTotalKg (st lbs : Option Rat) : Rat :=
  (st.getD 0 * 14 + lbs.getD 0) * (453592 / 1000000)

/-- The walk's per-offset condition: the candidate day `anchor - k` is on
or after the start date and its bucketed total meets the goal. -/
abbrev metOn (totals : List (Int × Rat)) (goal : Rat) (startDate anchor : Int)
    (k : Nat) : Prop :=
  startDate ≤ anchor - (k : Int) ∧
    metGoal (dayTotal totals (anchor - (k : Int))) goal = true

/-! ## Association-list lemmas -/

lemma sumValues_nil {κ : Type} : sumValues ([] : List (κ × Rat)) = 0 := rfl

lemma sumValues_addEntry {κ : Type} [DecidableEq κ] (m : List (κ × Rat))
    (k : κ) (v : Rat) : sumValues (addEntry m k v) = sumValues m + v := by
  induction m with
  | nil => simp [addEntry, sumValues]
  | cons p t ih =>
      obtain ⟨k0, w⟩ := p
      by_cases h : k0 = k
      · simp [addEntry, h, sumValues]
        ring
      · simp [addEntry, h, sumValues] at ih ⊢
        rw [ih]
        ring

lemma dayTotal_addEntry {κ : Type} [DecidableEq κ] (m : List (κ × Rat))
    (k x : κ) (v : Rat) :
    dayTotal (addEntry m k v) x = dayTotal m x + (if k = x then v else 0) := by
  induction m with
  | nil =>
      by_cases h : k = x <;> simp [addEntry, dayTotal, h]
  | cons p t ih =>
      obtain ⟨k0, w⟩ := p
      by_cases h : k0 = k
      · subst h
        by_cases hx : k0 = x <;> simp [addEntry, dayTotal, hx]
      · by_cases hx : k0 = x
        · subst hx
          have hkx : ¬ k = k0 := fun hc => h hc.symm
          simp [addEntry, dayTotal, h, hkx]
        · simp [addEntry, dayTotal, h, hx, ih]

lemma sumValues_foldl (es : List DatedEntry) :
    ∀ m : List (Int × Rat),
      sumValues (es.foldl (fun acc e => addEntry acc e.date e.value) m) =
        sumValues m + (es.map DatedEntry.value).sum := by
  induction es with
  | nil => intro m; simp
  | cons e t ih =>
      intro m
      simp only [List.foldl_cons, List.map_cons, List.sum_cons]
      rw [ih, sumValues_addEntry]
      ring

lemma dayTotal_foldl (es : List DatedEntry) :
    ∀ (m : List (Int × Rat)) (d : Int),
      dayTotal (es.foldl (fun acc e => addEntry acc e.date e.value) m) d =
        dayTotal m d + ((es.filter (fun e => e.date = d)).map DatedEntry.value).sum := by
  induction es with
  | nil => intro m d; simp
  | cons e t ih =>
      intro m d
      simp only [List.foldl_cons]
      rw [ih, dayTotal_addEntry]
      by_cases h : e.date = d
      · simp [h]
        ring
      · simp [h]

/-- Bucketed total of a day is the sum of the values of the entries
recorded on that day. -/
lemma dayTotal_dailyTotalsByDate (es : List DatedEntry) (d : Int) :
    dayTotal (dailyTotalsByDate es) d =
      ((es.filter (fun e => e.date = d)).map DatedEntry.value).sum := by
  rw [dailyTotalsByDate, dayTotal_foldl]
  simp [dayTotal]

/-! ## Consecutive-walk characterization -/

/-- Past offset 0 the walk is strict: it returns the accumulator plus the
length of the run of consecutive met offsets. -/
lemma streakGo_eq_countMetRun (totals : List (Int × Rat)) (goal : Rat)
    (startDate anchor : Int) :
    ∀ (fuel : Nat), ∀ (j acc : Nat), 0 < j →
      streakGo totals goal startDate anchor fuel j acc =
        acc + countMetRun totals goal startDate anchor fuel j := by
  intro fuel
  induction fuel with
  | zero => intro j acc _; simp [streakGo, countMetRun]
  | succ f ih =>
      intro j acc hj
      rw [streakGo, countMetRun]
      rcases lt_or_le (anchor - (j : Int)) startDate with h1 | h1
      · rw [if_pos h1, if_neg (fun hc => absurd h1 (not_lt.mpr hc.1))]
        omega
      · rw [if_neg (not_lt.mpr h1)]
        by_cases h2 : metGoal (dayTotal totals (anchor - (j : Int))) goal = true
        · rw [if_pos h2, if_pos ⟨h1, h2⟩, ih (j + 1) (acc + 1) (by omega)]
          omega
        · rw [if_neg h2, if_pos hj, if_neg (fun hc => h2 hc.2)]
          omega

/-- Characterization of the consecutive walk: a lenient anchor-day check
plus the strict run from offset 1. -/
lemma consecutiveStreak_eq (totals : List (Int × Rat)) (goal : Rat)
    (startDate anchor : Int) (h : startDate ≤ anchor) :
    consecutiveStreak totals goal startDate anchor =
      (if metGoal (dayTotal totals anchor) goal then 1 else 0) +
        countMetRun totals goal startDate anchor 365 1 := by
  have h366 : (366 : Nat) = 365 + 1 := rfl
  rw [consecutiveStreak, h366, streakGo]
  have h0 : ¬ anchor - ((0 : Nat) : Int) < startDate := by
    push_cast
    omega
  rw [if_neg h0]
  by_cases hm : metGoal (dayTotal totals (anchor - ((0 : Nat) : Int))) goal = true
  · rw [if_pos hm, streakGo_eq_countMetRun totals goal startDate anchor 365 1 1 one_pos]
    have hm0 : metGoal (dayTotal totals anchor) goal = true := by
      simpa using hm
    rw [if_pos hm0]
  · rw [if_neg hm, if_neg (lt_irrefl 0),
      streakGo_eq_countMetRun totals goal startDate anchor 365 1 0 one_pos]
    have hm0 : ¬ metGoal (dayTotal totals anchor) goal = true := by
      simpa using hm
    rw [if_neg hm0]

/-- The strict run count equals the position of the first failing offset:
if offsets `j .. j+m-1` are met and offset `j+m` fails, the count is `m`. -/
lemma countMetRun_eq_of_run (totals : List (Int × Rat)) (goal : Rat)
    (startDate anchor : Int) :
    ∀ (m : Nat), ∀ (fuel j : Nat),
      (∀ k, j ≤ k → k < j + m → metOn totals goal startDate anchor k) →
      ¬ metOn totals goal startDate anchor (j + m) →
      m < fuel →
      countMetRun totals goal startDate anchor fuel j = m := by
  intro m
  induction m with
  | zero =>
      intro fuel j _ hmiss hf
      obtain ⟨f, rfl⟩ : ∃ f, fuel = f + 1 := ⟨fuel - 1, by omega⟩
      rw [countMetRun, if_neg (by simpa using hmiss)]
  | succ n ih =>
      intro fuel j hall hmiss hf
      obtain ⟨f, rfl⟩ : ∃ f, fuel = f + 1 := ⟨fuel - 1, by omega⟩
      rw [countMetRun, if_pos (hall j le_rfl (by omega))]
      have hshift : j + 1 + n = j + (n + 1) := by omega
      rw [ih f (j + 1) (fun k hk1 hk2 => hall k (by omega) (by omega))
        (by rw [hshift]; exact hmiss) (by omega)]

/-- The walk returns at most `acc + fuel`. -/
lemma streakGo_le (totals : List (Int × Rat)) (goal : Rat)
    (startDate anchor : Int) :
    ∀ (fuel : Nat), ∀ (j acc : Nat),
      streakGo totals goal startDate anchor fuel j acc ≤ acc + fuel := by
  intro fuel
  induction fuel with
  | zero => intro j acc; simp [streakGo]
  | succ f ih =>
      intro j acc
      rw [streakGo]
      rcases lt_or_le (anchor - (j : Int)) startDate with h1 | h1
      · rw [if_pos h1]; omega
      · rw [if_neg (not_lt.mpr h1)]
        by_cases h2 : metGoal (dayTotal totals (anchor - (j : Int))) goal = true
        · rw [if_pos h2]
          have := ih (j + 1) (acc + 1)
          omega
        · rw [if_neg h2]
          by_cases h3 : 0 < j
          · rw [if_pos h3]; omega
          · rw [if_neg h3]
            have := ih (j + 1) acc
            omega

/-- The forward counting loop returns at most its iteration count. -/
lemma cumGo_le (totals : List (Int × Rat)) (goal : Rat) :
    ∀ (n : Nat), ∀ (d : Int), cumGo totals goal n d ≤ n := by
  intro n
  induction n with
  | zero => intro d; simp [cumGo]
  | succ k ih =>
      intro d
      rw [cumGo]
      have := ih (d + 1)
      by_cases h : metGoal (dayTotal totals d) goal = true
      · rw [if_pos h]; omega
      · rw [if_neg h]; omega

/-! ## Claim theorems -/

/-- C4: daily bucketing is sum-preserving and total — the sum of the
values in the totals map equals the sum of the input entry values, and an
empty entry list yields an empty map. -/
theorem bucketing_sum_invariant :
    ∀ es : List DatedEntry,
      sumValues (dailyTotalsByDate es) = (es.map DatedEntry.value).sum ∧
        dailyTotalsByDate [] = [] := by
  intro es
  refine ⟨?_, rfl⟩
  rw [dailyTotalsByDate, sumValues_foldl]
  simp [sumValues]

/-- C1: in the consecutive-mode streak computation, a missed goal on the
anchor day (offset 0) does not terminate the backward walk and does not
increment the count: the result is exactly the strict run counted from
offset 1. -/
theorem anchor_day_leniency :
    ∀ (totals : List (Int × Rat)) (goal : Rat) (startDate anchor : Int),
      startDate ≤ anchor →
      ¬ metGoal (dayTotal totals anchor) goal = true →
      consecutiveStreak totals goal startDate anchor =
        countMetRun totals goal startDate anchor 365 1 := by
  intro totals goal s a h hm
  rw [consecutiveStreak_eq totals goal s a h, if_neg hm]
  omega

/-- C1 witness: entries meeting the goal on days D-3, D-2, D-1 but not on
the anchor day D give a streak of 3, not 0. -/
theorem anchor_day_leniency_witness :
    ((-30 : Int) ≤ 0 ∧
      ¬ metGoal (dayTotal (dailyTotalsByDate [⟨-1, 150⟩, ⟨-2, 150⟩, ⟨-3, 150⟩]) 0)
          150 = true) ∧
    consecutiveStreak (dailyTotalsByDate [⟨-1, 150⟩, ⟨-2, 150⟩, ⟨-3, 150⟩])
        150 (-30) 0 = 3 :=
  ⟨⟨by decide, by decide⟩,
    (anchor_day_leniency (dailyTotalsByDate [⟨-1, 150⟩, ⟨-2, 150⟩, ⟨-3, 150⟩])
      150 (-30) 0 (by decide) (by decide)).trans (by decide)⟩

/-- C2: at any offset `i > 0` the walk stops at the first offset `j` whose
day misses the goal or falls strictly before the start date, counting only
the offsets before `j` (plus the lenient anchor check) — days beyond the
gap contribute nothing. -/
theorem streak_stops_at_first_gap :
    ∀ (totals : List (Int × Rat)) (goal : Rat) (startDate anchor : Int) (j : Nat),
      1 ≤ j → j ≤ 365 →
      (∀ k, 1 ≤ k → k < j → metOn totals goal startDate anchor k) →
      ¬ metOn totals goal startDate anchor j →
      startDate ≤ anchor →
      consecutiveStreak totals goal startDate anchor =
        (if metGoal (dayTotal totals anchor) goal then 1 else 0) + (j - 1) := by
  intro totals goal s a j h1 h2 hall hmiss h5
  rw [consecutiveStreak_eq totals goal s a h5]
  congr 1
  apply countMetRun_eq_of_run totals goal s a (j - 1) 365 1
  · intro k hk1 hk2
    exact hall k hk1 (by omega)
  · have hj : 1 + (j - 1) = j := by omega
    rw [hj]
    exact hmiss
  · omega

/-- C2 witness: goal met on D-1 and D-3 but not D-2, anchored at D-1
(met), gives a streak of 1 regardless of D-3. -/
theorem streak_stops_at_first_gap_witness :
    consecutiveStreak (dailyTotalsByDate [⟨0, 150⟩, ⟨-2, 150⟩]) 150 (-30) 0 = 1 :=
  (streak_stops_at_first_gap (dailyTotalsByDate [⟨0, 150⟩, ⟨-2, 150⟩])
      150 (-30) 0 1 (by decide) (by decide)
      (fun k hk1 hk2 => absurd (hk1.trans_lt hk2) (lt_irrefl 1))
      (by decide) (by decide)).trans (by decide)

/-- C9: the consecutive walk examines at most 366 offsets, so its result
is at most 366; the cumulative loop performs no iterations when the start
date is after the end date and is bounded by the size of the range. -/
theorem streak_loops_bounded :
    ∀ (totals : List (Int × Rat)) (goal : Rat) (startDate anchor s e : Int),
      consecutiveStreak totals goal startDate anchor ≤ 366 ∧
      (e < s → cumulativeCount totals goal s e = 0) ∧
      cumulativeCount totals goal s e ≤ (e + 1 - s).toNat := by
  intro totals goal sd a s e
  refine ⟨?_, ?_, ?_⟩
  · have h := streakGo_le totals goal sd a 366 0 0
    simpa [consecutiveStreak] using h
  · intro h
    have h0 : (e + 1 - s).toNat = 0 := by omega
    rw [cumulativeCount, h0]
    rfl
  · exact cumGo_le totals goal _ s

/-- C9 witness: a reversed range performs no iterations. -/
theorem streak_loops_bounded_witness :
    (3 : Int) < 5 ∧ cumulativeCount [] 0 5 3 = 0 :=
  ⟨by decide, (streak_loops_bounded [] 0 0 0 5 3).2.1 (by decide)⟩

/-- The consecutive walk reads the totals map only through the goal-met
comparison on day totals. -/
lemma streakGo_congr (t1 t2 : List (Int × Rat)) (goal : Rat) (s a : Int)
    (h : ∀ d, metGoal (dayTotal t1 d) goal = metGoal (dayTotal t2 d) goal) :
    ∀ (fuel : Nat), ∀ (j acc : Nat),
      streakGo t1 goal s a fuel j acc = streakGo t2 goal s a fuel j acc := by
  intro fuel
  induction fuel with
  | zero => intro j acc; rfl
  | succ f ih =>
      intro j acc
      rw [streakGo, streakGo]
      rcases lt_or_le (a - (j : Int)) s with h1 | h1
      · rw [if_pos h1, if_pos h1]
      · rw [if_neg (not_lt.mpr h1), if_neg (not_lt.mpr h1)]
        by_cases h2 : metGoal (dayTotal t2 (a - (j : Int))) goal = true
        · rw [if_pos h2, if_pos ((h (a - (j : Int))).trans h2), ih]
        · rw [if_neg h2, if_neg (fun hc => h2 (((h (a - (j : Int)))).symm.trans hc))]
          by_cases h3 : 0 < j
          · rw [if_pos h3, if_pos h3]
          · rw [if_neg h3, if_neg h3, ih]

/-- The cumulative loop reads the totals map only through the goal-met
comparison on day totals. -/
lemma cumGo_congr (t1 t2 : List (Int × Rat)) (goal : Rat)
    (h : ∀ d, metGoal (dayTotal t1 d) goal = metGoal (dayTotal t2 d) goal) :
    ∀ (n : Nat), ∀ (d : Int), cumGo t1 goal n d = cumGo t2 goal n d := by
  intro n
  induction n with
  | zero => intro d; rfl
  | succ k ih =>
      intro d
      rw [cumGo, cumGo, h d, ih]

/-- C3: the goal-met predicate is the non-strict comparison
`total >= goal`, hitting the goal exactly counts as met, and every goal
comparison — calendar rendering, streak and cumulative counting, month
aggregation — factors through this one predicate on bucketed day totals. -/
theorem metGoal_nonstrict_everywhere :
    (∀ total goal : Rat, metGoal total goal = true ↔ goal ≤ total) ∧
    (∀ goal : Rat, metGoal goal goal = true) ∧
    (∀ (ct : List ((Int × Int × Int) × Rat)) (y m d : Int) (goal : Rat),
      dayMetGoal ct y m d goal = metGoal (calDayTotal ct y m d) goal) ∧
    (∀ (t1 t2 : List (Int × Rat)) (goal : Rat) (s a : Int),
      (∀ d, metGoal (dayTotal t1 d) goal = metGoal (dayTotal t2 d) goal) →
      consecutiveStreak t1 goal s a = consecutiveStreak t2 goal s a) ∧
    (∀ (t1 t2 : List (Int × Rat)) (goal : Rat) (s e : Int),
      (∀ d, metGoal (dayTotal t1 d) goal = metGoal (dayTotal t2 d) goal) →
      cumulativeCount t1 goal s e = cumulativeCount t2 goal s e) ∧
    (∀ (c1 c2 : List ((Int × Int × Int) × Rat)) (y m : Int) (goal : Rat),
      (∀ d : Int, metGoal (calDayTotal c1 y m d) goal =
        metGoal (calDayTotal c2 y m d) goal) →
      monthMetCount c1 y m goal = monthMetCount c2 y m goal) := by
  refine ⟨?_, ?_, ?_, ?_, ?_, ?_⟩
  · intro total goal
    simp [metGoal]
  · intro goal
    simp [metGoal]
  · intro ct y m d goal
    rfl
  · intro t1 t2 goal s a h
    exact streakGo_congr t1 t2 goal s a h 366 0 0
  · intro t1 t2 goal s e h
    exact cumGo_congr t1 t2 goal h _ s
  · intro c1 c2 y m goal h
    rw [monthMetCount, monthMetCount]
    exact List.countP_congr
      (fun k _ => by simp [dayMetGoal, calDayTotal] at h ⊢; rw [h ((k : Int) + 1)])

/-- C3 witness: two maps whose totals differ but meet the goal on the
same days yield the same consecutive streak. -/
theorem metGoal_nonstrict_everywhere_witness :
    consecutiveStreak [((5 : Int), (160 : Rat))] 150 (-10) 0 =
      consecutiveStreak [((5 : Int), (999 : Rat))] 150 (-10) 0 :=
  metGoal_nonstrict_everywhere.2.2.2.1 [((5 : Int), (160 : Rat))]
    [((5 : Int), (999 : Rat))] 150 (-10) 0
    (fun d => by
      by_cases h : (5 : Int) = d
      · subst h; decide
      · simp [dayTotal, h])

/-- C5 counterexample: for one stone and zero pounds the code's metric
conversion gives 6.35029 kg, while the spec's composed conversion gives
14 * 0.453592 = 6.350288 kg. -/
theorem totalKg_ne_spec_at_one_stone :
    totalKg (some 1) (some 0) ≠ specTotalKg (some 1) (some 0) := by
  norm_num [totalKg, specTotalKg]

/-- C5 amended: the code's metric conversion uses 6.35029 kg per stone,
deviating from the spec's `(st*14 + lbs) * 0.453592` by exactly
`st * 0.000002` kg; the two agree exactly when the stone component is
zero (or null). -/
theorem totalKg_deviation :
    ∀ st lbs : Option Rat,
      totalKg st lbs = specTotalKg st lbs + st.getD 0 * (2 / 1000000) ∧
      totalKg none lbs = specTotalKg none lbs ∧
      totalKg (some 0) lbs = specTotalKg (some 0) lbs := by
  intro st lbs
  refine ⟨?_, ?_, ?_⟩ <;> simp only [totalKg, specTotalKg, Option.getD_some,
    Option.getD_none] <;> ring

/-- C8: splitting a non-negative total-pounds value built from integer
stone `s` and pounds `p ∈ [0, 14)` reconstructs the pair `(s, p)` exactly,
and in particular a pair whose total-pounds value equals the original. -/
theorem stone_pounds_round_trip :
    ∀ (s : Nat) (p : Rat), 0 ≤ p → p < 14 →
      (toStoneDisplayPounds (toTotalLbs (some s) (some p))).1 = s ∧
      (toStoneDisplayPounds (toTotalLbs (some s) (some p))).2 = p ∧
      ((toStoneDisplayPounds (toTotalLbs (some s) (some p))).1 : Rat) * 14 +
          (toStoneDisplayPounds (toTotalLbs (some s) (some p))).2 =
        toTotalLbs (some s) (some p) := by
  intro s p hp0 hp14
  have htot : toTotalLbs (some s) (some p) = ((s : Int) : Rat) * 14 + p := by
    simp [toTotalLbs]
  have hdiv : (((s : Int) : Rat) * 14 + p) / 14 = ((s : Int) : Rat) + p / 14 := by
    field_simp
  have hfrac : ⌊p / 14⌋ = 0 := by
    rw [Int.floor_eq_zero_iff]
    constructor
    · positivity
    · rw [div_lt_one (by norm_num : (0 : Rat) < 14)]
      exact hp14
  have hfloor : ⌊toTotalLbs (some s) (some p) / 14⌋ = (s : Int) := by
    rw [htot, hdiv, Int.floor_int_add, hfrac, add_zero]
  refine ⟨?_, ?_, ?_⟩
  · simpa [toStoneDisplayPounds] using hfloor
  · simp only [toStoneDisplayPounds]
    rw [hfloor, htot]
    ring
  · simp only [toStoneDisplayPounds]
    rw [hfloor, htot]
    ring

/-- C8 witness: 11 st 3.5 lbs round-trips through total pounds. -/
theorem stone_pounds_round_trip_witness :
    ((toStoneDisplayPounds (toTotalLbs (some 11) (some (7 / 2)))).1 : Rat) * 14 +
        (toStoneDisplayPounds (toTotalLbs (some 11) (some (7 / 2)))).2 =
      toTotalLbs (some 11) (some (7 / 2)) :=
  (stone_pounds_round_trip 11 (7 / 2) (by norm_num) (by norm_num)).2.2

/-- Counting over `List.range n` shifted by one matches filtering the
days `1 .. n`. -/
lemma countP_range_eq_card_Icc (p : Nat → Bool) :
    ∀ n : Nat, (List.range n).countP (fun k => p (k + 1)) =
      ((Finset.Icc 1 n).filter (fun d => p d = true)).card := by
  intro n
  induction n with
  | zero => simp
  | succ n ih =>
      rw [List.range_succ, List.countP_append]
      have hIcc : Finset.Icc 1 (n + 1) = insert (n + 1) (Finset.Icc 1 n) := by
        ext x
        simp only [Finset.mem_Icc, Finset.mem_insert]
        omega
      have hnot : (n + 1) ∉ Finset.Icc 1 n := by
        simp [Finset.mem_Icc]
      rw [hIcc, Finset.filter_insert]
      by_cases h : p (n + 1) = true
      · rw [if_pos h,
          Finset.card_insert_of_not_mem (fun hc => hnot (Finset.mem_of_mem_filter _ hc))]
        simp only [List.countP_cons, List.countP_nil, h, if_pos]
        omega
      · rw [if_neg h]
        simp only [List.countP_cons, List.countP_nil, h]
        simpa using ih

/-- C6: the month aggregate counts exactly the calendar days
`1 .. daysInMonth(year, month)` whose bucketed total (zero when the day is
absent) meets the goal; in particular entries of 100g and 60g on
2024-01-01 and 150g on 2024-01-02 with goal 150 give a count of 2 for
January 2024. -/
theorem monthMetCount_counts_met_days :
    (∀ (totals : List ((Int × Int × Int) × Rat)) (y m : Int) (goal : Rat),
      monthMetCount totals y m goal =
        ((Finset.Icc 1 (daysInMonth y m)).filter
          (fun d : Nat => metGoal (calDayTotal totals y m (d : Int)) goal = true)).card) ∧
    monthMetCount
        (calTotalsByDate [⟨2024, 1, 1, 100⟩, ⟨2024, 1, 1, 60⟩, ⟨2024, 1, 2, 150⟩])
        2024 1 150 = 2 := by
  constructor
  · intro totals y m goal
    have hfun : (fun k : Nat => dayMetGoal totals y m ((k : Int) + 1) goal) =
        (fun k : Nat =>
          (fun d : Nat => metGoal (calDayTotal totals y m (d : Int)) goal) (k + 1)) := by
      funext k
      simp only [dayMetGoal]
      norm_cast
    rw [monthMetCount, hfun,
      countP_range_eq_card_Icc (fun d => metGoal (calDayTotal totals y m (d : Int)) goal)]
  · have hb : calTotalsByDate
        [⟨2024, 1, 1, 100⟩, ⟨2024, 1, 1, 60⟩, ⟨2024, 1, 2, 150⟩] =
        [(((2024 : Int), (1 : Int), (1 : Int)), (160 : Rat)),
          (((2024 : Int), (1 : Int), (2 : Int)), (150 : Rat))] := by
      simp only [calTotalsByDate, List.foldl_cons, List.foldl_nil, addEntry,
        Prod.mk.injEq]
      norm_num
    rw [hb]
    decide

/-- The forward loop over `n` days starting at `s` counts the met days of
`Finset.Icc s (s + n - 1)`. -/
lemma cumGo_eq_card_Icc (totals : List (Int × Rat)) (goal : Rat) :
    ∀ (n : Nat), ∀ (s : Int),
      cumGo totals goal n s =
        ((Finset.Icc s (s + (n : Int) - 1)).filter
          (fun d => metGoal (dayTotal totals d) goal = true)).card := by
  intro n
  induction n with
  | zero =>
      intro s
      rw [cumGo, Finset.Icc_eq_empty (by push_cast; omega)]
      simp
  | succ k ih =>
      intro s
      rw [cumGo, ih (s + 1)]
      have hIcc : Finset.Icc s (s + ((k + 1 : Nat) : Int) - 1) =
          insert s (Finset.Icc (s + 1) (s + 1 + (k : Int) - 1)) := by
        ext x
        simp only [Finset.mem_Icc, Finset.mem_insert]
        push_cast
        omega
      have hs : s ∉ Finset.Icc (s + 1) (s + 1 + (k : Int) - 1) := by
        simp only [Finset.mem_Icc]
        omega
      rw [hIcc, Finset.filter_insert]
      by_cases h : metGoal (dayTotal totals s) goal = true
      · rw [if_pos h, if_pos h,
          Finset.card_insert_of_not_mem (fun hc => hs (Finset.mem_of_mem_filter _ hc))]
        omega
      · rw [if_neg h, if_neg h]
        omega

/-- `cumulativeCount` counts the met days of the inclusive range. -/
lemma cumulativeCount_eq_card_Icc (totals : List (Int × Rat)) (goal : Rat)
    (s e : Int) :
    cumulativeCount totals goal s e =
      ((Finset.Icc s e).filter (fun d => metGoal (dayTotal totals d) goal = true)).card := by
  rw [cumulativeCount, cumGo_eq_card_Icc]
  rcases le_or_lt s e with h | h
  · have hcast : ((e + 1 - s).toNat : Int) = e + 1 - s := Int.toNat_of_nonneg (by omega)
    have hend : s + ((e + 1 - s).toNat : Int) - 1 = e := by
      rw [hcast]
      ring
    rw [hend]
  · have h0 : (e + 1 - s).toNat = 0 := by omega
    rw [h0, Finset.Icc_eq_empty (by push_cast; omega), Finset.Icc_eq_empty (by omega)]

/-- C7: cumulative counting is order-independent — permuting the entry
list leaves the count unchanged — and the count is the number of calendar
days in `[startDate, endDate]` inclusive whose bucketed total meets the
goal. -/
theorem cumulative_order_independent :
    ∀ (es rs : List DatedEntry) (goal : Rat) (s e : Int),
      es.Perm rs →
      cumulativeCount (dailyTotalsByDate es) goal s e =
          cumulativeCount (dailyTotalsByDate rs) goal s e ∧
      cumulativeCount (dailyTotalsByDate es) goal s e =
        ((Finset.Icc s e).filter
          (fun d => metGoal (dayTotal (dailyTotalsByDate es) d) goal = true)).card := by
  intro es rs goal s e hp
  have hpt : ∀ d, dayTotal (dailyTotalsByDate es) d = dayTotal (dailyTotalsByDate rs) d := by
    intro d
    rw [dayTotal_dailyTotalsByDate, dayTotal_dailyTotalsByDate]
    exact ((hp.filter (fun x => x.date = d)).map DatedEntry.value).sum_eq
  constructor
  · rw [cumulativeCount, cumulativeCount]
    exact cumGo_congr (dailyTotalsByDate es) (dailyTotalsByDate rs) goal
      (fun d => by rw [hpt d]) _ s
  · exact cumulativeCount_eq_card_Icc (dailyTotalsByDate es) goal s e

/-- C7 witness: swapping two entries leaves the cumulative count
unchanged. -/
theorem cumulative_order_independent_witness :
    cumulativeCount (dailyTotalsByDate [⟨1, 100⟩, ⟨2, 50⟩]) 100 1 2 =
      cumulativeCount (dailyTotalsByDate [⟨2, 50⟩, ⟨1, 100⟩]) 100 1 2 :=
  (cumulative_order_independent [⟨1, 100⟩, ⟨2, 50⟩] [⟨2, 50⟩, ⟨1, 100⟩]
    100 1 2 (by decide)).1

/-- When the start date lies at or before every examined day, the reward
walk past offset 0 coincides with the home screen's backward loop. -/
lemma streakGo_eq_backGo (totals : List (Int × Rat)) (goal : Rat)
    (startDate today : Int) (hs : startDate ≤ today - 365) :
    ∀ (fuel : Nat), ∀ (j acc : Nat), 0 < j → j + fuel ≤ 366 →
      streakGo totals goal startDate today fuel j acc =
        backGo totals goal today fuel j acc := by
  intro fuel
  induction fuel with
  | zero => intro j acc _ _; rfl
  | succ f ih =>
      intro j acc hj hle
      rw [streakGo, backGo]
      have hj365 : ((j : Int)) ≤ 365 := by
        exact_mod_cast (by omega : j ≤ 365)
      rw [if_neg (by omega : ¬ today - (j : Int) < startDate)]
      by_cases h2 : metGoal (dayTotal totals (today - (j : Int))) goal = true
      · rw [if_pos h2, if_pos h2, ih (j + 1) (acc + 1) (by omega) (by omega)]
      · rw [if_neg h2, if_neg h2, if_pos hj]

/-- C10 amended: the home-screen protein streak and the consecutive-mode
reward streak anchored at today agree whenever the reward's start date is
on or before every examined day, provided the entry list is non-empty or
the goal is positive (the empty-list early return makes them differ for a
non-positive goal, see the counterexample). -/
theorem proteinStreak_agrees_with_reward_streak :
    ∀ (entries : List DatedEntry) (goal : Rat) (startDate today : Int),
      startDate ≤ today - 365 →
      (entries ≠ [] ∨ 0 < goal) →
      proteinStreak entries goal today =
        consecutiveStreak (dailyTotalsByDate entries) goal startDate today := by
  intro es goal s today hs hne
  by_cases he : es.isEmpty
  · have hgoal : 0 < goal := by
      rcases hne with h | h
      · exact absurd (List.isEmpty_iff.mp he) h
      · exact h
    rw [proteinStreak, if_pos he, List.isEmpty_iff.mp he]
    have hmiss : ∀ d : Int,
        ¬ metGoal (dayTotal (dailyTotalsByDate []) d) goal = true := by
      intro d hc
      simp only [dailyTotalsByDate, List.foldl_nil, dayTotal, metGoal,
        decide_eq_true_eq] at hc
      exact absurd hc (not_le.mpr hgoal)
    rw [consecutiveStreak, show (366 : Nat) = 365 + 1 from rfl, streakGo]
    rw [if_neg (by push_cast; omega : ¬ today - ((0 : Nat) : Int) < s)]
    rw [if_neg (hmiss (today - ((0 : Nat) : Int))), if_neg (lt_irrefl 0)]
    rw [show (365 : Nat) = 364 + 1 from rfl, streakGo]
    rw [if_neg (by push_cast; omega : ¬ today - ((1 : Nat) : Int) < s)]
    rw [if_neg (hmiss (today - ((1 : Nat) : Int))), if_pos (by omega : 0 < 1)]
  · rw [proteinStreak, if_neg he]
    rw [consecutiveStreak, show (366 : Nat) = 365 + 1 from rfl, streakGo]
    rw [if_neg (by push_cast; omega : ¬ today - ((0 : Nat) : Int) < s)]
    have hcast : today - ((0 : Nat) : Int) = today := by
      push_cast
      ring
    rw [hcast]
    by_cases hm : metGoal (dayTotal (dailyTotalsByDate es) today) goal = true
    · rw [if_pos hm, if_pos hm,
        streakGo_eq_backGo (dailyTotalsByDate es) goal s today hs 365 1 1
          (by omega) (by omega)]
    · rw [if_neg hm, if_neg hm, if_neg (lt_irrefl 0),
        streakGo_eq_backGo (dailyTotalsByDate es) goal s today hs 365 1 0
          (by omega) (by omega)]

/-- C10 witness: with one entry meeting the goal today, both streak
computations return the same value. -/
theorem proteinStreak_agrees_with_reward_streak_witness :
    proteinStreak [⟨0, 150⟩] 150 0 =
      consecutiveStreak (dailyTotalsByDate [⟨0, 150⟩]) 150 (-400) 0 :=
  proteinStreak_agrees_with_reward_streak [⟨0, 150⟩] 150 (-400) 0
    (by decide) (Or.inl (by decide))

set_option maxRecDepth 20000 in
/-- C10 counterexample: with an empty entry list and goal 0 the
home-screen streak returns 0 via its early return, while the reward walk
counts all 366 examined days (every absent day has total 0 >= 0), even
though the start date is on or before every examined day. -/
theorem proteinStreak_disagrees_on_empty_entries_zero_goal :
    (-1000 : Int) ≤ 0 - 365 ∧
    proteinStreak [] 0 0 = 0 ∧
    consecutiveStreak (dailyTotalsByDate []) 0 (-1000) 0 = 366 := by
  refine ⟨by decide, rfl, ?_⟩
  rfl

end Trackd
